import Mathlib

/-!
Verification of the `ProjectsList` model (stm32pio GUI, `stm32pio/gui/list.py`).

The repository's core under verification is the `ProjectsList` class: an ordered
collection of project list items with deduplicated insertion, batch addition,
removal, and a serialized background persistence ("save in settings") routine.

Shallow embedding conventions:
* `ProjectListItem` (from `stm32pio/gui/project.py`, which is not part of the
  given sources) is modelled from the spec's "Async Unit" contract: a display
  `name` that reads as the sentinel `"Loading..."` until construction resolves,
  a nullable `project` payload (the inner `Stm32pio` instance, here reduced to
  its canonical path string), and a `fromStartup` flag.
* The durable store (`QSettings`) is modelled from the spec's Durable Store
  Adapter contract: `beginGroup`/`endGroup`, `remove`, `beginWriteArray`,
  `setArrayIndex`, `setValue`, `endArray`, committing a full array per
  (group stack, key).
* `pathlib.Path.samefile` is an external filesystem query; it is passed in as
  an oracle `samefile : String → String → Option Bool`, where `none` stands
  for the call raising `OSError`.
* `QUrl` classification of an input string (`isEmpty` / `isLocalFile` /
  `isRelative`) is passed in as an oracle `classify : String → UrlClass`.
* Qt signals, logging and model notifications are recorded as an `Event` trace.
* Python's aliasing of the caller-supplied `project_args` list is made explicit
  through a small heap of string lists addressed by `Nat` references.
-/

namespace ProjectsList

/-- The inner payload (`Stm32pio` instance) reduced to the data the list core
reads from it: its canonical path, as persisted by `str(project.project.path)`. -/
structure Stm32pio where
  path : String
  deriving DecidableEq

/-- Modelled from the spec: one "Async Unit" (`ProjectListItem`, whose own code
is not among the given sources).  `name` is the displayed string (the sentinel
`"Loading..."` until construction resolves), `project` the nullable payload,
`fromStartup` whether the entry was loaded from the durable store at startup. -/
structure ProjectListItem where
  name : String
  project : Option Stm32pio
  fromStartup : Bool
  deriving DecidableEq

/-- Placeholder item used to give total semantics to indexed access. -/
def defaultItem : ProjectListItem :=
  { name := "", project := none, fromStartup := false }

/-- A committed array slot: the key/value pairs written at one array index
(the Persistence Record stores `{path: string}` per slot). -/
abbrev ArrayEntry := List (String × String)

/-- Modelled from the spec: the Durable Store Adapter (`QSettings`) state.
`arrays` maps (group stack, array key) to the committed array; a write array in
progress is tracked by `pendingKey`, its recorded `(index, key, value)` writes
by `pending`, and the current array index by `currentIndex`. -/
structure Settings where
  arrays : List ((List String × String) × List ArrayEntry)
  groupStack : List String
  pendingKey : Option String
  pending : List (Nat × String × String)
  currentIndex : Nat
  deriving DecidableEq

/-- `settings.beginGroup(name)`: push a group onto the group stack. -/
def Settings.beginGroup (s : Settings) (g : String) : Settings :=
  { s with groupStack := s.groupStack ++ [g] }

/-- `settings.endGroup()`: pop the innermost group. -/
def Settings.endGroup (s : Settings) : Settings :=
  { s with groupStack := s.groupStack.dropLast }

/-- `settings.remove(key)`: clear whatever currently occupies the key under the
current group (including any previously committed array). -/
def Settings.remove (s : Settings) (k : String) : Settings :=
  { s with arrays := s.arrays.filter (fun e => e.1 ≠ (s.groupStack, k)) }

/-- `settings.beginWriteArray(key)`: start recording a full-array write. -/
def Settings.beginWriteArray (s : Settings) (k : String) : Settings :=
  { s with pendingKey := some k, pending := [], currentIndex := 0 }

/-- `settings.setArrayIndex(i)`. -/
def Settings.setArrayIndex (s : Settings) (i : Nat) : Settings :=
  { s with currentIndex := i }

/-- `settings.setValue(key, value)`: inside an array write, record the value at
the current array index.  (The list core only ever writes inside an array.) -/
def Settings.setValue (s : Settings) (key value : String) : Settings :=
  if s.pendingKey.isSome then
    { s with pending := s.pending ++ [(s.currentIndex, key, value)] }
  else s

/-- Grow a committed array with empty slots so that an index becomes
addressable (QSettings array semantics). -/
def padTo (arr : List ArrayEntry) (i : Nat) : List ArrayEntry :=
  if i < arr.length then arr else arr ++ List.replicate (i + 1 - arr.length) []

/-- Place one recorded `(index, key, value)` write into a committed array. -/
def commitStep (arr : List ArrayEntry) (e : Nat × String × String) : List ArrayEntry :=
  (padTo arr e.1).set e.1 ((padTo arr e.1).getD e.1 [] ++ [(e.2.1, e.2.2)])

/-- Commit all recorded writes of a write array, in write order. -/
def commitArray (pending : List (Nat × String × String)) : List ArrayEntry :=
  pending.foldl commitStep []

/-- `settings.endArray()`: commit the recorded writes as the full array stored
under (current group stack, array key), replacing any previous entry. -/
def Settings.endArray (s : Settings) : Settings :=
  match s.pendingKey with
  | some k =>
      { s with
        arrays := ((s.groupStack, k), commitArray s.pending) ::
          s.arrays.filter (fun e => e.1 ≠ (s.groupStack, k)),
        pendingKey := none, pending := [], currentIndex := 0 }
  | none => s

/-- Read the committed array stored under a (group stack, key). -/
def lookupArray (s : Settings) (gk : List String × String) : Option (List ArrayEntry) :=
  (s.arrays.find? (fun e => e.1 = gk)).map (fun e => e.2)

/-- A settings store with nothing begun and nothing written. -/
def emptySettings : Settings :=
  { arrays := [], groupStack := [], pendingKey := none, pending := [], currentIndex := 0 }

/-- Events observable from the list core: log records at their levels, the
`goToProject` signal, a forwarded action invocation on an existing item, signal
connection, the observable-list notification pairs, a submitted settings save
(`saveInSettings()` handing the save body to the single-worker pool), and the
deferred destruction request (`deleteLater`). -/
inductive Event where
  | logInfo (msg : String)
  | logWarning (msg : String)
  | logError (msg : String)
  | goToProject (idx : Nat)
  | runAction (idx : Nat) (action : String) (params : List (String × String))
  | connectInitialized
  | beginInsertRows (first lst : Nat)
  | endInsertRows
  | beginRemoveRows (first lst : Nat)
  | endRemoveRows
  | save
  | deleteLater
  deriving DecidableEq

/-! ### The save body (`_saveInSettings`) -/

/-- The wait predicate of the save body:
`all(project.name != 'Loading...' for project in self.projects)`. -/
def allLoaded (ps : List ProjectListItem) : Bool :=
  ps.all (fun p => p.name != "Loading...")

/-- The canonical paths the save body persists: one per item whose inner
`Stm32pio` instance was successfully constructed, in collection order. -/
def savedPaths (ps : List ProjectListItem) : List String :=
  ps.filterMap (fun p => p.project.map (fun pr => pr.path))

/-- The committed array slot written for one saved path: `{path: string}`. -/
def projectRecord (path : String) : ArrayEntry := [("path", path)]

/-- The write loop of the save body over an already-enumerated list:
`settings.setArrayIndex(idx); settings.setValue('path', str(project.project.path))`
for each `(idx, project)`. -/
def writeLoopAux (ivs : List (Nat × ProjectListItem)) (s : Settings) : Settings :=
  ivs.foldl
    (fun st iv =>
      (st.setArrayIndex iv.1).setValue "path" ((iv.2.project.map (fun pr => pr.path)).getD ""))
    s

/-- `for idx, project in enumerate(projects_to_save): ...` -/
def writeLoop (projects_to_save : List ProjectListItem) (s : Settings) : Settings :=
  writeLoopAux projects_to_save.enum s

/-- The store-writing part of `_saveInSettings`, applied to the snapshot of the
collection the save body observes after its wait:
filter to successfully constructed items, `beginGroup('app')`,
`remove('projects')`, `beginWriteArray('projects')`, the write loop,
`endArray()`, `endGroup()`, and the completion log record with the count. -/
def writeBody (projects : List ProjectListItem) (settings : Settings) : Settings × Event :=
  (((writeLoop (projects.filter (fun p => p.project.isSome))
        (((settings.beginGroup "app").remove "projects").beginWriteArray "projects")).endArray).endGroup,
   Event.logInfo
     (toString (projects.filter (fun p => p.project.isSome)).length ++
       " projects have been saved to Settings"))

/-- The busy-wait `while not all(...): pass` of the save body.  The collection
evolves concurrently with the spin loop, so the loop is modelled over an
environment `env` giving the collection state observed at each poll; `fuel`
bounds the number of polls (the Python loop is unbounded: `none` means the
loop has not exited within `fuel` polls).  Returns the poll time at which the
wait predicate first held. -/
def waitAll (env : Nat → List ProjectListItem) : Nat → Nat → Option Nat
  | 0, _ => none
  | fuel + 1, t => if allLoaded (env t) then some t else waitAll env fuel (t + 1)

/-- The save body `_saveInSettings`: wait until every item has left the loading
state, then snapshot the collection and rewrite the persisted array.  Returns
the poll time of the snapshot, the resulting store and the completion log
record (or `none` if the wait did not terminate within `fuel` polls). -/
def saveInSettingsBody (env : Nat → List ProjectListItem) (fuel : Nat)
    (settings : Settings) : Option (Nat × Settings × Event) :=
  (waitAll env fuel 0).map (fun t => (t, writeBody (env t) settings))

/-! ### The single-worker pool (`QThreadPool` with `maxThreadCount == 1`) -/

/-- Modelled from the spec: the single-worker pool runs at most one task at a
time and runs queued tasks in submission order, so executing a queue of
submitted tasks is their sequential composition in submission order. -/
def runPool (tasks : List (Settings → Settings)) (s : Settings) : Settings :=
  tasks.foldl (fun st task => task st) s

/-- The store-transforming part of one queued save whose wait resolved on the
given snapshot of the collection. -/
def saveTask (snapshot : List ProjectListItem) : Settings → Settings :=
  fun s => (writeBody snapshot s).1

/-! ### Deduplication -/

/-- One step of the `each_project_is_duplicate_of` generator, for one list item.
`samefile a b` models `pathlib.Path(a).samefile(pathlib.Path(b))`; `none` models
the call raising `OSError`, which the generator catches and turns into `False`:
`(list_item.project is not None and list_item.project.path.samefile(pathlib.Path(path)))
 or path == list_item.name`, wrapped in `try ... except OSError: yield False`. -/
def is_duplicate_of (samefile : String → String → Option Bool)
    (list_item : ProjectListItem) (path : String) : Bool :=
  match list_item.project with
  | some pr =>
      match samefile pr.path path with
      | some b => b || (path == list_item.name)
      | none => false
  | none => path == list_item.name

/-- `each_project_is_duplicate_of(path)`: the generator's yields, in collection
order. -/
def each_project_is_duplicate_of (samefile : String → String → Option Bool)
    (projects : List ProjectListItem) (path : String) : List Bool :=
  projects.map (fun item => is_duplicate_of samefile item path)

/-- Index of the first `true` in a list of answers, mirroring
`next((idx for idx, is_duplicated in enumerate(...) if is_duplicated), -1)`
before the `-1` default is applied. -/
def firstTrueIdx : List Bool → Option Nat
  | [] => none
  | b :: rest => if b then some 0 else (firstTrueIdx rest).map (fun i => i + 1)

/-- `duplicate_index`: the first matching index in collection order, `-1` if no
item matches. -/
def duplicate_index (samefile : String → String → Option Bool)
    (projects : List ProjectListItem) (path : String) : Int :=
  match firstTrueIdx (each_project_is_duplicate_of samefile projects path) with
  | some i => Int.ofNat i
  | none => -1

/-! ### `addListItem` -/

/-- The keyword-argument mapping passed to `addListItem` as the callee sees it.
`parent`: `none` models the key being absent, `some b` the key being present
with truthiness `b`.  `project_args`: a reference into the heap of mutable
string lists (`none` models the key being absent).  `parameters` stands for
`list_item_kwargs.get('project_kwargs', {}).get('parameters', {})`.
`from_startup` is forwarded to the `ProjectListItem` constructor. -/
structure ItemKwargs where
  parent : Option Bool
  project_args : Option Nat
  parameters : List (String × String)
  from_startup : Bool
  deriving DecidableEq

/-- The kwargs value used for `dict({})` when the caller passed `None`. -/
def emptyKwargs : ItemKwargs :=
  { parent := none, project_args := none, parameters := [], from_startup := false }

/-- `if 'parent' not in list_item_kwargs or not list_item_kwargs['parent']:
list_item_kwargs['parent'] = self` — applied to the callee's shallow copy. -/
def withParentDefault (kw : ItemKwargs) : ItemKwargs :=
  if kw.parent = none ∨ kw.parent = some false then { kw with parent := some true } else kw

/-- `list_item_kwargs = dict(list_item_kwargs if list_item_kwargs is not None
else {})` followed by the parent default: the callee's own copy of the
caller-supplied mapping. -/
def copiedKwargs (kw : Option ItemKwargs) : ItemKwargs :=
  withParentDefault (kw.getD emptyKwargs)

/-- Result of one `addListItem` call: the collection after, the heap of mutable
string lists after (tracking in-place mutation of a caller-supplied
`project_args` list), the returned item, the event trace, and whether a new
item was created (as opposed to an existing duplicate being returned). -/
structure AddOutcome where
  projects : List ProjectListItem
  heap : List (List String)
  returned : ProjectListItem
  events : List Event
  created : Bool
  deriving DecidableEq

/-- The duplicate branch of `addListItem`: warn, forward non-empty parameters
to the existing item as a `save_config` action, emit `goToProject` with the
duplicate's index, and return the existing item; nothing is inserted and the
heap is untouched. -/
def dupOutcome (projects : List ProjectListItem) (heap : List (List String))
    (path : String) (kw : ItemKwargs) (idx : Nat) : AddOutcome :=
  { projects := projects
    heap := heap
    returned := projects.getD idx defaultItem
    events := Event.logWarning ("This project is already in the list: " ++ path) ::
      ((if kw.parameters.length ≠ 0 then
          [Event.logInfo "updating parameters from the CLI...",
           Event.runAction idx "save_config" kw.parameters]
        else []) ++ [Event.goToProject idx])
    created := false }

/-- The insertion branch of `addListItem`: place the path into the constructor
args — `list_item_kwargs['project_args'] = [path]` when the key is absent or
the list is empty (a fresh list, allocated at the end of the heap), otherwise
`list_item_kwargs['project_args'][0] = path` (in-place mutation of the
caller's list) — construct the item (a cheap wrapper that starts in the
loading state; its heavy construction runs out-of-band), optionally connect
the `initialized` callback, and append the item bracketed by the insert
notifications. -/
def newOutcome (projects : List ProjectListItem) (heap : List (List String))
    (path : String) (kw : ItemKwargs) (hasOnInitialized : Bool) : AddOutcome :=
  { projects := projects ++ [{ name := "Loading...", project := none, fromStartup := kw.from_startup }]
    heap :=
      match kw.project_args with
      | none => heap ++ [[path]]
      | some r =>
          if (heap.getD r []).length = 0 then heap ++ [[path]]
          else heap.set r (path :: (heap.getD r []).tail)
    returned := { name := "Loading...", project := none, fromStartup := kw.from_startup }
    events := (if hasOnInitialized then [Event.connectInitialized] else []) ++
      [Event.beginInsertRows projects.length projects.length, Event.endInsertRows]
    created := true }

/-- `addListItem(path, list_item_kwargs, on_initialized)`. -/
def addListItem (samefile : String → String → Option Bool)
    (projects : List ProjectListItem) (heap : List (List String)) (path : String)
    (list_item_kwargs : Option ItemKwargs) (hasOnInitialized : Bool) : AddOutcome :=
  if duplicate_index samefile projects path > -1 then
    dupOutcome projects heap path (copiedKwargs list_item_kwargs)
      (duplicate_index samefile projects path).toNat
  else
    newOutcome projects heap path (copiedKwargs list_item_kwargs) hasOnInitialized

/-! ### `addProjectsByPaths` -/

/-- Modelled from the spec: how `QUrl` classifies one input string —
empty (`isEmpty`), a well-formed local-file URI carrying its decoded local
path (`isLocalFile`/`toLocalFile`), a scheme-less string (`isRelative`), or
anything else (malformed). -/
inductive UrlClass where
  | empty
  | localFile (decoded : String)
  | relative
  | other
  deriving DecidableEq

/-- State threaded through a batch add: collection, heap, event trace. -/
structure BatchOutcome where
  projects : List ProjectListItem
  heap : List (List String)
  events : List Event
  deriving DecidableEq

/-- One iteration of the `addProjectsByPaths` loop body for one path string:
empty → warning and `continue`; local-file URI → `addListItem` on the decoded
local path; relative (no `file://` prefix) → `addListItem` on the source
string; anything else → error record and `continue`. -/
def batchStep (samefile : String → String → Option Bool) (classify : String → UrlClass)
    (acc : BatchOutcome) (path_str : String) : BatchOutcome :=
  match classify path_str with
  | UrlClass.empty =>
      { acc with events := acc.events ++ [Event.logWarning ("Given path is empty: " ++ path_str)] }
  | UrlClass.localFile p =>
      let r := addListItem samefile acc.projects acc.heap p none false
      { projects := r.projects, heap := r.heap, events := acc.events ++ r.events }
  | UrlClass.relative =>
      let r := addListItem samefile acc.projects acc.heap path_str none false
      { projects := r.projects, heap := r.heap, events := acc.events ++ r.events }
  | UrlClass.other =>
      { acc with events := acc.events ++ [Event.logError ("Incorrect path: " ++ path_str)] }

/-- `addProjectsByPaths(paths)`: a non-empty batch is processed path by path and
followed by a single submitted save; an empty batch only warns. -/
def addProjectsByPaths (samefile : String → String → Option Bool)
    (classify : String → UrlClass) (projects : List ProjectListItem)
    (heap : List (List String)) (paths : List String) : BatchOutcome :=
  if paths.length ≠ 0 then
    let r := paths.foldl (batchStep samefile classify)
      { projects := projects, heap := heap, events := [] }
    { r with events := r.events ++ [Event.save] }
  else
    { projects := projects, heap := heap, events := [Event.logWarning "No paths were given"] }

/-! ### `get` and `removeProject` -/

/-- `get(index)`: expose the item at an index; out-of-range (including
negative, per `index in range(len(self.projects))`) returns nothing. -/
def get (projects : List ProjectListItem) (index : Int) : Option ProjectListItem :=
  if 0 ≤ index ∧ index < (projects.length : Int) then
    some (projects.getD index.toNat defaultItem)
  else none

/-- Result of `removeProject`: the collection after and the event trace. -/
structure RemoveOutcome where
  projects : List ProjectListItem
  events : List Event
  deriving DecidableEq

/-- `removeProject(index)`: in range, remove the item bracketed by the remove
notifications, submit a save only if the item's payload was constructed or the
item came from the durable store at startup, then request deferred
destruction; out of range, do nothing. -/
def removeProject (projects : List ProjectListItem) (index : Int) : RemoveOutcome :=
  if 0 ≤ index ∧ index < (projects.length : Int) then
    { projects := projects.eraseIdx index.toNat
      events := [Event.beginRemoveRows index.toNat index.toNat, Event.endRemoveRows] ++
        (if (projects.getD index.toNat defaultItem).project.isSome ||
            (projects.getD index.toNat defaultItem).fromStartup then [Event.save] else []) ++
        [Event.deleteLater] }
  else { projects := projects, events := [] }

/-! ### Sequences of adds (for order preservation) -/

/-- State threaded through a sequence of `addListItem` calls: collection, heap,
the items returned by each call in order, and whether every call so far
created a new item. -/
structure SeqOutcome where
  projects : List ProjectListItem
  heap : List (List String)
  returns : List ProjectListItem
  allCreated : Bool
  deriving DecidableEq

/-- Run a sequence of `addListItem` calls (path and kwargs per call). -/
def addSeq (samefile : String → String → Option Bool) (start : SeqOutcome)
    (reqs : List (String × Option ItemKwargs)) : SeqOutcome :=
  reqs.foldl
    (fun acc req =>
      let r := addListItem samefile acc.projects acc.heap req.1 req.2 false
      { projects := r.projects, heap := r.heap, returns := acc.returns ++ [r.returned],
        allCreated := acc.allCreated && r.created })
    start

/-! ### Statement-side abbreviations -/

/-- The resolution `addProjectsByPaths` applies to one path string before any
item is created: the decoded local path of a local-file URI, a scheme-less
string verbatim, nothing for empty or malformed entries. -/
def resolvePath (classify : String → UrlClass) (p : String) : Option String :=
  match classify p with
  | UrlClass.empty => none
  | UrlClass.localFile d => some d
  | UrlClass.relative => some p
  | UrlClass.other => none

/-- One `addListItem` call viewed only through collection and heap. -/
def addResolved (samefile : String → String → Option Bool)
    (state : List ProjectListItem × List (List String)) (p : String) :
    List ProjectListItem × List (List String) :=
  ((addListItem samefile state.1 state.2 p none false).projects,
   (addListItem samefile state.1 state.2 p none false).heap)

/-- Modelled from the spec: once an item's construction completed, its payload's
recorded path is the item's resolved identity, which is never the loading
sentinel.  (Decidable form used as a hypothesis.) -/
def noSentinelPayload (ps : List ProjectListItem) : Bool :=
  ps.all (fun p => (p.project.map (fun pr => pr.path != "Loading...")).getD true)

/-- Is an event a warning-level log record? -/
def isWarningEv : Event → Bool
  | Event.logWarning _ => true
  | _ => false

/-- Is an event an error-level log record? -/
def isErrorEv : Event → Bool
  | Event.logError _ => true
  | _ => false

/-- The duplicate rule exactly as the specification words it: payload
constructed and same file, or display name literally equal to the candidate.
Stated as a second definition, to be compared with the source's
`is_duplicate_of`. -/
def specDuplicateOf (samefile : String → String → Option Bool)
    (list_item : ProjectListItem) (path : String) : Bool :=
  (match list_item.project with
   | some pr => samefile pr.path path == some true
   | none => false) || (path == list_item.name)

/-! ### Concrete fixtures (used by witnesses and counterexamples) -/

/-- A filesystem oracle on which every same-file check raises `OSError`. -/
def sfNone : String → String → Option Bool := fun _ _ => none

/-- A constructed item with canonical path `/a`. -/
def unitA : ProjectListItem := { name := "a", project := some { path := "/a" }, fromStartup := false }

/-- A constructed item with canonical path `/b`. -/
def unitB : ProjectListItem := { name := "b", project := some { path := "/b" }, fromStartup := false }

/-- A still-loading item. -/
def unitLoading : ProjectListItem :=
  { name := "Loading...", project := none, fromStartup := false }

/-- A collection environment that is constantly the single loaded item `unitA`. -/
def envW : Nat → List ProjectListItem := fun _ => [unitA]

/-- The store produced by saving `[unitA]` into an empty store. -/
def settingsW : Settings :=
  { arrays := [((["app"], "projects"), [[("path", "/a")]])],
    groupStack := [], pendingKey := none, pending := [], currentIndex := 0 }

/-- A constructed item whose display name is `p` but whose payload path is `q`. -/
def cexItem : ProjectListItem :=
  { name := "p", project := some { path := "q" }, fromStartup := false }

/-- An item displaying the name `p` while still unconstructed. -/
def namedLoadingItem : ProjectListItem :=
  { name := "p", project := none, fromStartup := false }

/-- Kwargs carrying a caller-supplied `project_args` list at heap reference 0. -/
def kwListRef : ItemKwargs :=
  { parent := none, project_args := some 0, parameters := [], from_startup := false }

/-- Kwargs carrying non-empty construction parameters. -/
def kwParams : ItemKwargs :=
  { parent := none, project_args := none, parameters := [("project", "board0")], from_startup := false }

/-- A classifier that deems every string malformed. -/
def clOther : String → UrlClass := fun _ => UrlClass.other

/-- A classifier that deems every string a bare relative path. -/
def clRel : String → UrlClass := fun _ => UrlClass.relative

/-- A classifier exercising all four classes. -/
def clMix : String → UrlClass := fun s =>
  if s == "f" then UrlClass.localFile "/f"
  else if s == "bad" then UrlClass.other
  else if s == "" then UrlClass.empty
  else UrlClass.relative

/-- A concrete two-element add sequence. -/
def reqsW : List (String × Option ItemKwargs) := [("a", none), ("b", none)]

/-! ## Helper lemmas -/

theorem getD_concat_length {α : Type} (arr : List α) (x d : α) :
    (arr ++ [x]).getD arr.length d = x := by
  induction arr with
  | nil => rfl
  | cons a l ih => simp [ih]

theorem set_concat_length {α : Type} (arr : List α) (x y : α) :
    (arr ++ [x]).set arr.length y = arr ++ [y] := by
  induction arr with
  | nil => rfl
  | cons a l ih => simp [List.set, ih]

/-- State of the settings after the save body's write loop over an enumerated
suffix: the `(index, 'path', value)` writes are appended to the pending list in
collection order, and nothing else changes apart from the current index. -/
theorem writeLoopAux_enumFrom (l : List ProjectListItem) :
    ∀ (k : Nat) (st : Settings), st.pendingKey.isSome = true →
      (writeLoopAux (List.enumFrom k l) st).pending =
          st.pending ++ (List.enumFrom k l).map
            (fun iv => (iv.1, "path", (iv.2.project.map (fun pr => pr.path)).getD "")) ∧
      (writeLoopAux (List.enumFrom k l) st).arrays = st.arrays ∧
      (writeLoopAux (List.enumFrom k l) st).groupStack = st.groupStack ∧
      (writeLoopAux (List.enumFrom k l) st).pendingKey = st.pendingKey := by
  induction l with
  | nil => intro k st _; simp [writeLoopAux]
  | cons a l ih =>
      intro k st h
      have hstep : writeLoopAux (List.enumFrom k (a :: l)) st =
          writeLoopAux (List.enumFrom (k + 1) l)
            ((st.setArrayIndex k).setValue "path" ((a.project.map (fun pr => pr.path)).getD "")) := rfl
      have hfields :
          (st.setArrayIndex k).setValue "path" ((a.project.map (fun pr => pr.path)).getD "") =
            { st with
              currentIndex := k
              pending := st.pending ++ [(k, "path", (a.project.map (fun pr => pr.path)).getD "")] } := by
        simp [Settings.setArrayIndex, Settings.setValue, h]
      rw [hstep, hfields]
      obtain ⟨h1, h2, h3, h4⟩ := ih (k + 1)
        { st with
          currentIndex := k
          pending := st.pending ++ [(k, "path", (a.project.map (fun pr => pr.path)).getD "")] }
        (by simpa using h)
      refine ⟨?_, by simpa using h2, by simpa using h3, by simpa using h4⟩
      rw [h1]
      simp

/-- Committing the write loop's records extends the committed array with one
`{path: value}` slot per write, in order. -/
theorem commit_loop (l : List ProjectListItem) :
    ∀ (arr : List ArrayEntry),
      ((List.enumFrom arr.length l).map
          (fun iv => (iv.1, "path", (iv.2.project.map (fun pr => pr.path)).getD ""))).foldl
        commitStep arr
      = arr ++ l.map (fun p => [("path", (p.project.map (fun pr => pr.path)).getD "")]) := by
  induction l with
  | nil => intro arr; simp
  | cons a l ih =>
      intro arr
      have hpad : padTo arr arr.length = arr ++ [[]] := by
        have hone : arr.length + 1 - arr.length = 1 := by omega
        simp [padTo, hone]
      have hstep : commitStep arr (arr.length, "path", (a.project.map (fun pr => pr.path)).getD "") =
          arr ++ [[("path", (a.project.map (fun pr => pr.path)).getD "")]] := by
        rw [commitStep]
        simp only [hpad]
        rw [getD_concat_length, set_concat_length]
        simp
      have hunfold : ((List.enumFrom arr.length (a :: l)).map
          (fun iv => (iv.1, "path", (iv.2.project.map (fun pr => pr.path)).getD ""))).foldl
            commitStep arr =
          ((List.enumFrom (arr.length + 1) l).map
          (fun iv => (iv.1, "path", (iv.2.project.map (fun pr => pr.path)).getD ""))).foldl
            commitStep
            (commitStep arr (arr.length, "path", (a.project.map (fun pr => pr.path)).getD "")) := rfl
      have hlen2 : arr.length + 1 =
          (arr ++ [[("path", (a.project.map (fun pr => pr.path)).getD "")]]).length := by simp
      rw [hunfold, hstep, hlen2, ih]
      simp

/-- The filtered collection's write values, slot by slot, are exactly the
records of the constructed items' paths. -/
theorem filter_map_records (ps : List ProjectListItem) :
    (ps.filter (fun p => p.project.isSome)).map
        (fun p => [("path", (p.project.map (fun pr => pr.path)).getD "")]) =
      (savedPaths ps).map projectRecord := by
  induction ps with
  | nil => rfl
  | cons p ps ih =>
      cases h : p.project with
      | none => simpa [savedPaths, List.filter, List.filterMap, h] using ih
      | some pr => simpa [savedPaths, List.filter, List.filterMap, h, projectRecord] using ih

theorem filter_length_saved (ps : List ProjectListItem) :
    (ps.filter (fun p => p.project.isSome)).length = (savedPaths ps).length := by
  induction ps with
  | nil => rfl
  | cons p ps ih =>
      cases h : p.project with
      | none => simpa [savedPaths, List.filter, List.filterMap, h] using ih
      | some pr => simpa [savedPaths, List.filter, List.filterMap, h] using ih

theorem endArray_of_pendingKey (st : Settings) (k : String) (h : st.pendingKey = some k) :
    st.endArray =
      { arrays := ((st.groupStack, k), commitArray st.pending) ::
          st.arrays.filter (fun e => e.1 ≠ (st.groupStack, k))
        groupStack := st.groupStack
        pendingKey := none
        pending := []
        currentIndex := 0 } := by
  simp [Settings.endArray, h]

theorem lookupArray_endGroup (s : Settings) (gk : List String × String) :
    lookupArray s.endGroup gk = lookupArray s gk := rfl

/-- The store-writing part of the save body: the committed array under group
`app`, key `projects`, becomes exactly the records of the constructed items'
canonical paths in collection order (whatever the store held before), the
group stack is restored, and the completion log record carries the count. -/
theorem writeBody_spec (ps : List ProjectListItem) (s : Settings) :
    lookupArray (writeBody ps s).1 (s.groupStack ++ ["app"], "projects") =
        some ((savedPaths ps).map projectRecord) ∧
    (writeBody ps s).1.groupStack = s.groupStack ∧
    (writeBody ps s).2 = Event.logInfo
      (toString (savedPaths ps).length ++ " projects have been saved to Settings") := by
  obtain ⟨h1, h2, h3, h4⟩ := writeLoopAux_enumFrom (ps.filter (fun p => p.project.isSome)) 0
    { arrays := s.arrays.filter (fun e => e.1 ≠ (s.groupStack ++ ["app"], "projects"))
      groupStack := s.groupStack ++ ["app"]
      pendingKey := some "projects"
      pending := []
      currentIndex := 0 } rfl
  set s4 := writeLoopAux
      (List.enumFrom 0 (ps.filter (fun p => p.project.isSome)))
      { arrays := s.arrays.filter (fun e => e.1 ≠ (s.groupStack ++ ["app"], "projects"))
        groupStack := s.groupStack ++ ["app"]
        pendingKey := some "projects"
        pending := []
        currentIndex := 0 } with hs4
  have hw : writeBody ps s =
      ((s4.endArray).endGroup,
       Event.logInfo (toString (ps.filter (fun p => p.project.isSome)).length ++
         " projects have been saved to Settings")) := rfl
  have hcommit : commitArray s4.pending = (savedPaths ps).map projectRecord := by
    rw [commitArray, h1]
    simp only [List.nil_append]
    have := commit_loop (ps.filter (fun p => p.project.isSome)) []
    simp only [List.length_nil, List.nil_append] at this
    rw [this]
    exact filter_map_records ps
  have hend : s4.endArray =
      { arrays := ((s.groupStack ++ ["app"], "projects"), (savedPaths ps).map projectRecord) ::
          s4.arrays.filter (fun e => e.1 ≠ (s.groupStack ++ ["app"], "projects"))
        groupStack := s.groupStack ++ ["app"]
        pendingKey := none
        pending := []
        currentIndex := 0 } := by
    rw [endArray_of_pendingKey s4 "projects" (by rw [h4]), hcommit, h3]
  rw [hw]
  refine ⟨?_, ?_, ?_⟩
  · show lookupArray (s4.endArray).endGroup (s.groupStack ++ ["app"], "projects") = _
    rw [lookupArray_endGroup, hend]
    simp [lookupArray, List.find?_cons_of_pos]
  · show ((s4.endArray).endGroup).groupStack = s.groupStack
    rw [hend]
    show (s.groupStack ++ ["app"]).dropLast = s.groupStack
    exact List.dropLast_concat
  · show Event.logInfo _ = Event.logInfo _
    rw [filter_length_saved]

/-- Soundness of the busy-wait: if it exits reporting poll time `t`, the wait
predicate held at `t` and at no earlier polled time. -/
theorem waitAll_spec (env : Nat → List ProjectListItem) :
    ∀ (fuel t0 t : Nat), waitAll env fuel t0 = some t →
      allLoaded (env t) = true ∧ t0 ≤ t ∧
        ∀ u, t0 ≤ u → u < t → allLoaded (env u) = false := by
  intro fuel
  induction fuel with
  | zero => intro t0 t h; simp [waitAll] at h
  | succ fuel ih =>
      intro t0 t h
      rw [waitAll] at h
      by_cases hl : allLoaded (env t0) = true
      · rw [if_pos hl] at h
        obtain rfl : t0 = t := by simpa using h
        exact ⟨hl, Nat.le_refl _, fun u hu1 hu2 => absurd (Nat.lt_of_le_of_lt hu1 hu2) (lt_irrefl _)⟩
      · rw [if_neg hl] at h
        obtain ⟨ha, hle, hmid⟩ := ih (t0 + 1) t h
        refine ⟨ha, by omega, fun u hu1 hu2 => ?_⟩
        rcases Nat.eq_or_lt_of_le hu1 with hu | hu
        · rw [← hu]; exact Bool.eq_false_iff.mpr (fun hc => hl hc)
        · exact hmid u (by omega) hu2

/-- The save body only returns through a successful wait followed by the write
body applied to the snapshot observed at the reported poll time. -/
theorem saveInSettingsBody_eq (env : Nat → List ProjectListItem) (fuel : Nat)
    (s : Settings) (t : Nat) (s' : Settings) (ev : Event)
    (h : saveInSettingsBody env fuel s = some (t, s', ev)) :
    waitAll env fuel 0 = some t ∧ (s', ev) = writeBody (env t) s := by
  rw [saveInSettingsBody] at h
  cases hw : waitAll env fuel 0 with
  | none => rw [hw] at h; exact absurd h (by simp)
  | some t' =>
      rw [hw] at h
      have h' : (t', writeBody (env t') s) = (t, s', ev) := by simpa using h
      have ht : t' = t := congrArg Prod.fst h'
      subst ht
      exact ⟨rfl, (congrArg Prod.snd h').symm⟩

/-! ### Dedup helper lemmas -/

theorem getD_mem_of_lt {α : Type} :
    ∀ (l : List α) (d : α) (i : Nat), i < l.length → l.getD i d ∈ l := by
  intro l
  induction l with
  | nil => intro d i h; simp at h
  | cons a rest ih =>
      intro d i h
      cases i with
      | zero => simp [List.getD]
      | succ i' =>
          have : (a :: rest).getD (i' + 1) d = rest.getD i' d := by simp [List.getD]
          rw [this]
          exact List.mem_cons_of_mem a (ih d i' (by simpa using Nat.lt_of_succ_lt_succ h))

theorem firstTrueIdx_none_iff : ∀ l : List Bool, firstTrueIdx l = none ↔ ∀ b ∈ l, b = false := by
  intro l
  induction l with
  | nil => simp [firstTrueIdx]
  | cons b rest ih =>
      cases hb : b with
      | true => simp [firstTrueIdx]
      | false => simp [firstTrueIdx, ih]

theorem firstTrueIdx_some_spec : ∀ (l : List Bool) (i : Nat), firstTrueIdx l = some i →
    i < l.length ∧ l.getD i false = true ∧ ∀ j, j < i → l.getD j false = false := by
  intro l
  induction l with
  | nil => intro i h; simp [firstTrueIdx] at h
  | cons b rest ih =>
      intro i h
      cases hb : b with
      | true =>
          rw [hb] at h
          simp [firstTrueIdx] at h
          obtain rfl := h.symm
          exact ⟨by simp, by simp, fun j hj => absurd hj (Nat.not_lt_zero j)⟩
      | false =>
          rw [hb] at h
          rw [show firstTrueIdx (false :: rest) =
            (firstTrueIdx rest).map (fun i => i + 1) from rfl] at h
          rw [Option.map_eq_some'] at h
          obtain ⟨i', hrest, hi⟩ := h
          obtain rfl : i' + 1 = i := hi
          obtain ⟨hl, hg, hmid⟩ := ih i' hrest
          refine ⟨by simpa using Nat.succ_lt_succ hl, by simpa using hg, fun j hj => ?_⟩
          cases j with
          | zero => rfl
          | succ j' => simpa using hmid j' (by omega)

theorem getD_map_is_dup (samefile : String → String → Option Bool) (path : String) :
    ∀ (l : List ProjectListItem) (i : Nat), i < l.length →
      (each_project_is_duplicate_of samefile l path).getD i false =
        is_duplicate_of samefile (l.getD i defaultItem) path := by
  intro l
  induction l with
  | nil => intro i h; simp at h
  | cons p rest ih =>
      intro i h
      cases i with
      | zero => rfl
      | succ i' =>
          have := ih i' (by simpa using Nat.lt_of_succ_lt_succ h)
          simpa [each_project_is_duplicate_of] using this

/-- `duplicate_index` returning a non-negative index means: that index is in
range, its item matches, and no earlier item matches. -/
theorem duplicate_index_coe_spec (samefile : String → String → Option Bool)
    (projects : List ProjectListItem) (path : String) (i : Nat)
    (h : duplicate_index samefile projects path = Int.ofNat i) :
    i < projects.length ∧
    is_duplicate_of samefile (projects.getD i defaultItem) path = true ∧
    ∀ j, j < i → is_duplicate_of samefile (projects.getD j defaultItem) path = false := by
  rw [duplicate_index] at h
  cases hf : firstTrueIdx (each_project_is_duplicate_of samefile projects path) with
  | none => rw [hf] at h; simp at h
  | some i' =>
      rw [hf] at h
      have hii : i' = i := by simpa using h
      subst hii
      obtain ⟨hl, hg, hmid⟩ := firstTrueIdx_some_spec _ _ hf
      have hlen : (each_project_is_duplicate_of samefile projects path).length =
          projects.length := by
        simp [each_project_is_duplicate_of]
      rw [hlen] at hl
      refine ⟨hl, ?_, fun j hj => ?_⟩
      · rw [← getD_map_is_dup samefile path projects i' hl]; exact hg
      · rw [← getD_map_is_dup samefile path projects j (by omega)]; exact hmid j hj

/-- `duplicate_index` is `-1` exactly when no item in the collection is a
duplicate of the candidate. -/
theorem duplicate_index_neg_iff (samefile : String → String → Option Bool)
    (projects : List ProjectListItem) (path : String) :
    duplicate_index samefile projects path = -1 ↔
      ∀ item ∈ projects, is_duplicate_of samefile item path = false := by
  rw [duplicate_index]
  cases hf : firstTrueIdx (each_project_is_duplicate_of samefile projects path) with
  | none =>
      simp only [iff_true_intro rfl, true_iff]
      have := (firstTrueIdx_none_iff _).mp hf
      intro item hitem
      exact this _ (by simp [each_project_is_duplicate_of]; exact ⟨item, hitem, rfl⟩)
  | some i =>
      constructor
      · intro hc; exact absurd hc (by simp)
      · intro hall
        exfalso
        obtain ⟨hl, hg, _⟩ := firstTrueIdx_some_spec _ _ hf
        have hlen : (each_project_is_duplicate_of samefile projects path).length =
            projects.length := by simp [each_project_is_duplicate_of]
        rw [hlen] at hl
        rw [getD_map_is_dup samefile path projects i hl] at hg
        have : projects.getD i defaultItem ∈ projects := getD_mem_of_lt projects defaultItem i hl
        rw [hall _ this] at hg
        exact Bool.false_ne_true hg

/-- Either no duplicate is found (`-1`) or the first duplicate's index is
returned. -/
theorem duplicate_index_cases (samefile : String → String → Option Bool)
    (projects : List ProjectListItem) (path : String) :
    duplicate_index samefile projects path = -1 ∨
      ∃ i, duplicate_index samefile projects path = Int.ofNat i := by
  rw [duplicate_index]
  cases firstTrueIdx (each_project_is_duplicate_of samefile projects path) with
  | none => exact Or.inl rfl
  | some i => exact Or.inr ⟨i, rfl⟩

/-! ### `addListItem` helper lemmas -/

theorem copiedKwargs_fields (kw : Option ItemKwargs) :
    (copiedKwargs kw).project_args = (kw.getD emptyKwargs).project_args ∧
    (copiedKwargs kw).parameters = (kw.getD emptyKwargs).parameters ∧
    (copiedKwargs kw).from_startup = (kw.getD emptyKwargs).from_startup := by
  rw [copiedKwargs, withParentDefault]
  split <;> exact ⟨rfl, rfl, rfl⟩

theorem addListItem_dup (samefile : String → String → Option Bool)
    (projects : List ProjectListItem) (heap : List (List String)) (path : String)
    (kw : Option ItemKwargs) (cb : Bool) (i : Nat)
    (h : duplicate_index samefile projects path = Int.ofNat i) :
    addListItem samefile projects heap path kw cb =
      dupOutcome projects heap path (copiedKwargs kw) i := by
  rw [addListItem, h, if_pos (show Int.ofNat i > -1 by
    have h0 : (0 : Int) ≤ Int.ofNat i := Int.ofNat_nonneg i
    exact lt_of_lt_of_le (by decide) h0)]
  rfl

theorem addListItem_new (samefile : String → String → Option Bool)
    (projects : List ProjectListItem) (heap : List (List String)) (path : String)
    (kw : Option ItemKwargs) (cb : Bool)
    (h : duplicate_index samefile projects path = -1) :
    addListItem samefile projects heap path kw cb =
      newOutcome projects heap path (copiedKwargs kw) cb := by
  rw [addListItem, h, if_neg (by omega : ¬ ((-1 : Int) > -1))]

theorem addListItem_shape (samefile : String → String → Option Bool)
    (projects : List ProjectListItem) (heap : List (List String)) (path : String)
    (kw : Option ItemKwargs) (cb : Bool) :
    ((addListItem samefile projects heap path kw cb).created = true →
      (addListItem samefile projects heap path kw cb).projects =
        projects ++ [(addListItem samefile projects heap path kw cb).returned]) ∧
    ((addListItem samefile projects heap path kw cb).created = false →
      (addListItem samefile projects heap path kw cb).projects = projects) := by
  rcases duplicate_index_cases samefile projects path with hd | ⟨i, hd⟩
  · rw [addListItem_new samefile projects heap path kw cb hd]
    exact ⟨fun _ => rfl, fun hc => by simp [newOutcome] at hc⟩
  · rw [addListItem_dup samefile projects heap path kw cb i hd]
    exact ⟨fun hc => by simp [dupOutcome] at hc, fun _ => rfl⟩

theorem addListItem_no_save (samefile : String → String → Option Bool)
    (projects : List ProjectListItem) (heap : List (List String)) (path : String)
    (kw : Option ItemKwargs) (cb : Bool) :
    Event.save ∉ (addListItem samefile projects heap path kw cb).events := by
  rcases duplicate_index_cases samefile projects path with hd | ⟨i, hd⟩
  · rw [addListItem_new samefile projects heap path kw cb hd]
    cases cb <;> simp [newOutcome]
  · rw [addListItem_dup samefile projects heap path kw cb i hd]
    by_cases hp : (copiedKwargs kw).parameters.length ≠ 0 <;> simp [dupOutcome, hp]

/-! ### Batch add helper lemmas -/

theorem batchStep_events_ext (samefile : String → String → Option Bool)
    (classify : String → UrlClass) (acc : BatchOutcome) (p : String) :
    ∃ ext, (batchStep samefile classify acc p).events = acc.events ++ ext := by
  rw [batchStep]
  cases classify p
  · exact ⟨_, rfl⟩
  · exact ⟨_, rfl⟩
  · exact ⟨_, rfl⟩
  · exact ⟨_, rfl⟩

theorem batchFold_events_ext (samefile : String → String → Option Bool)
    (classify : String → UrlClass) :
    ∀ (paths : List String) (acc : BatchOutcome),
      ∃ ext, (paths.foldl (batchStep samefile classify) acc).events = acc.events ++ ext := by
  intro paths
  induction paths with
  | nil => intro acc; exact ⟨[], by simp⟩
  | cons p rest ih =>
      intro acc
      obtain ⟨e1, h1⟩ := batchStep_events_ext samefile classify acc p
      obtain ⟨e2, h2⟩ := ih (batchStep samefile classify acc p)
      exact ⟨e1 ++ e2, by rw [List.foldl_cons, h2, h1, List.append_assoc]⟩

theorem batchStep_count_save (samefile : String → String → Option Bool)
    (classify : String → UrlClass) (acc : BatchOutcome) (p : String) :
    (batchStep samefile classify acc p).events.count Event.save =
      acc.events.count Event.save := by
  cases hc : classify p with
  | empty => simp [batchStep, hc, List.count_append]
  | localFile d =>
      have hstep : (batchStep samefile classify acc p).events =
          acc.events ++ (addListItem samefile acc.projects acc.heap d none false).events := by
        simp [batchStep, hc]
      rw [hstep, List.count_append,
        List.count_eq_zero.mpr (addListItem_no_save samefile acc.projects acc.heap d none false),
        Nat.add_zero]
  | relative =>
      have hstep : (batchStep samefile classify acc p).events =
          acc.events ++ (addListItem samefile acc.projects acc.heap p none false).events := by
        simp [batchStep, hc]
      rw [hstep, List.count_append,
        List.count_eq_zero.mpr (addListItem_no_save samefile acc.projects acc.heap p none false),
        Nat.add_zero]
  | other => simp [batchStep, hc, List.count_append]

theorem batchFold_count_save (samefile : String → String → Option Bool)
    (classify : String → UrlClass) :
    ∀ (paths : List String) (acc : BatchOutcome),
      ((paths.foldl (batchStep samefile classify) acc).events).count Event.save =
        acc.events.count Event.save := by
  intro paths
  induction paths with
  | nil => intro acc; rfl
  | cons p rest ih =>
      intro acc
      rw [List.foldl_cons, ih, batchStep_count_save]

theorem batchFold_projects_heap (samefile : String → String → Option Bool)
    (classify : String → UrlClass) :
    ∀ (paths : List String) (acc : BatchOutcome),
      (paths.foldl (batchStep samefile classify) acc).projects =
        ((paths.filterMap (resolvePath classify)).foldl (addResolved samefile)
          (acc.projects, acc.heap)).1 ∧
      (paths.foldl (batchStep samefile classify) acc).heap =
        ((paths.filterMap (resolvePath classify)).foldl (addResolved samefile)
          (acc.projects, acc.heap)).2 := by
  intro paths
  induction paths with
  | nil => intro acc; exact ⟨rfl, rfl⟩
  | cons p rest ih =>
      intro acc
      cases hc : classify p with
      | empty =>
          have hstep : batchStep samefile classify acc p =
              { acc with events := acc.events ++ [Event.logWarning ("Given path is empty: " ++ p)] } := by
            simp [batchStep, hc]
          have hres : (p :: rest).filterMap (resolvePath classify) =
              rest.filterMap (resolvePath classify) := by
            simp [List.filterMap_cons, resolvePath, hc]
          rw [List.foldl_cons, hstep, hres]
          simpa using ih { acc with
            events := acc.events ++ [Event.logWarning ("Given path is empty: " ++ p)] }
      | localFile d =>
          have hstep : batchStep samefile classify acc p =
              { projects := (addListItem samefile acc.projects acc.heap d none false).projects
                heap := (addListItem samefile acc.projects acc.heap d none false).heap
                events := acc.events ++
                  (addListItem samefile acc.projects acc.heap d none false).events } := by
            simp [batchStep, hc]
          have hres : (p :: rest).filterMap (resolvePath classify) =
              d :: rest.filterMap (resolvePath classify) := by
            simp [List.filterMap_cons, resolvePath, hc]
          rw [List.foldl_cons, hstep, hres, List.foldl_cons]
          simpa [addResolved] using ih
            { projects := (addListItem samefile acc.projects acc.heap d none false).projects
              heap := (addListItem samefile acc.projects acc.heap d none false).heap
              events := acc.events ++
                (addListItem samefile acc.projects acc.heap d none false).events }
      | relative =>
          have hstep : batchStep samefile classify acc p =
              { projects := (addListItem samefile acc.projects acc.heap p none false).projects
                heap := (addListItem samefile acc.projects acc.heap p none false).heap
                events := acc.events ++
                  (addListItem samefile acc.projects acc.heap p none false).events } := by
            simp [batchStep, hc]
          have hres : (p :: rest).filterMap (resolvePath classify) =
              p :: rest.filterMap (resolvePath classify) := by
            simp [List.filterMap_cons, resolvePath, hc]
          rw [List.foldl_cons, hstep, hres, List.foldl_cons]
          simpa [addResolved] using ih
            { projects := (addListItem samefile acc.projects acc.heap p none false).projects
              heap := (addListItem samefile acc.projects acc.heap p none false).heap
              events := acc.events ++
                (addListItem samefile acc.projects acc.heap p none false).events }
      | other =>
          have hstep : batchStep samefile classify acc p =
              { acc with events := acc.events ++ [Event.logError ("Incorrect path: " ++ p)] } := by
            simp [batchStep, hc]
          have hres : (p :: rest).filterMap (resolvePath classify) =
              rest.filterMap (resolvePath classify) := by
            simp [List.filterMap_cons, resolvePath, hc]
          rw [List.foldl_cons, hstep, hres]
          simpa using ih { acc with
            events := acc.events ++ [Event.logError ("Incorrect path: " ++ p)] }

theorem batchFold_mem_error (samefile : String → String → Option Bool)
    (classify : String → UrlClass) :
    ∀ (paths : List String) (acc : BatchOutcome) (p : String), p ∈ paths →
      classify p = UrlClass.other →
      Event.logError ("Incorrect path: " ++ p) ∈
        (paths.foldl (batchStep samefile classify) acc).events := by
  intro paths
  induction paths with
  | nil => intro acc p h; simp at h
  | cons q rest ih =>
      intro acc p hmem hc
      rw [List.foldl_cons]
      rcases List.mem_cons.mp hmem with rfl | hmem'
      · obtain ⟨ext, hext⟩ := batchFold_events_ext samefile classify rest
          (batchStep samefile classify acc p)
        rw [hext]
        refine List.mem_append.mpr (Or.inl ?_)
        simp [batchStep, hc]
      · exact ih _ p hmem' hc

theorem batchFold_mem_warning (samefile : String → String → Option Bool)
    (classify : String → UrlClass) :
    ∀ (paths : List String) (acc : BatchOutcome) (p : String), p ∈ paths →
      classify p = UrlClass.empty →
      Event.logWarning ("Given path is empty: " ++ p) ∈
        (paths.foldl (batchStep samefile classify) acc).events := by
  intro paths
  induction paths with
  | nil => intro acc p h; simp at h
  | cons q rest ih =>
      intro acc p hmem hc
      rw [List.foldl_cons]
      rcases List.mem_cons.mp hmem with rfl | hmem'
      · obtain ⟨ext, hext⟩ := batchFold_events_ext samefile classify rest
          (batchStep samefile classify acc p)
        rw [hext]
        refine List.mem_append.mpr (Or.inl ?_)
        simp [batchStep, hc]
      · exact ih _ p hmem' hc

/-! ### Sequence-of-adds helper lemma -/

theorem addSeq_ext (samefile : String → String → Option Bool) :
    ∀ (reqs : List (String × Option ItemKwargs)) (acc : SeqOutcome),
      ∃ newUnits newReturns,
        (addSeq samefile acc reqs).projects = acc.projects ++ newUnits ∧
        (addSeq samefile acc reqs).returns = acc.returns ++ newReturns ∧
        ((addSeq samefile acc reqs).allCreated = true →
          acc.allCreated = true ∧ newUnits = newReturns) := by
  intro reqs
  induction reqs with
  | nil =>
      intro acc
      exact ⟨[], [], by simp [addSeq], by simp [addSeq], fun h => ⟨by simpa [addSeq] using h, rfl⟩⟩
  | cons req rest ih =>
      intro acc
      have hstep : addSeq samefile acc (req :: rest) =
          addSeq samefile
            { projects := (addListItem samefile acc.projects acc.heap req.1 req.2 false).projects
              heap := (addListItem samefile acc.projects acc.heap req.1 req.2 false).heap
              returns := acc.returns ++
                [(addListItem samefile acc.projects acc.heap req.1 req.2 false).returned]
              allCreated := acc.allCreated &&
                (addListItem samefile acc.projects acc.heap req.1 req.2 false).created }
            rest := rfl
      obtain ⟨hcr, hncr⟩ := addListItem_shape samefile acc.projects acc.heap req.1 req.2 false
      obtain ⟨nu, nr, ha, hb, hall⟩ := ih
        { projects := (addListItem samefile acc.projects acc.heap req.1 req.2 false).projects
          heap := (addListItem samefile acc.projects acc.heap req.1 req.2 false).heap
          returns := acc.returns ++
            [(addListItem samefile acc.projects acc.heap req.1 req.2 false).returned]
          allCreated := acc.allCreated &&
            (addListItem samefile acc.projects acc.heap req.1 req.2 false).created }
      cases hcreated : (addListItem samefile acc.projects acc.heap req.1 req.2 false).created with
      | true =>
          refine ⟨(addListItem samefile acc.projects acc.heap req.1 req.2 false).returned :: nu,
            (addListItem samefile acc.projects acc.heap req.1 req.2 false).returned :: nr,
            ?_, ?_, ?_⟩
          · rw [hstep, ha]
            simp [hcr hcreated]
          · rw [hstep, hb]
            simp
          · intro hfin
            rw [hstep] at hfin
            obtain ⟨h1, h2⟩ := hall hfin
            simp only [hcreated, Bool.and_true] at h1
            exact ⟨h1, by rw [h2]⟩
      | false =>
          refine ⟨nu,
            (addListItem samefile acc.projects acc.heap req.1 req.2 false).returned :: nr,
            ?_, ?_, ?_⟩
          · rw [hstep, ha]
            simp [hncr hcreated]
          · rw [hstep, hb]
            simp
          · intro hfin
            rw [hstep] at hfin
            obtain ⟨h1, _⟩ := hall hfin
            simp [hcreated] at h1

/-! ### Miscellaneous helper lemmas -/

theorem sentinel_not_saved (ps : List ProjectListItem) (h : noSentinelPayload ps = true) :
    "Loading..." ∉ savedPaths ps := by
  intro hmem
  rw [savedPaths] at hmem
  obtain ⟨p, hp, hpp⟩ := List.mem_filterMap.mp hmem
  cases hpr : p.project with
  | none => rw [hpr] at hpp; simp at hpp
  | some pr =>
      rw [hpr] at hpp
      have hpath : pr.path = "Loading..." := by simpa using hpp
      have := (List.all_eq_true.mp h) p hp
      rw [hpr] at this
      simp [hpath] at this

theorem runPool_groupStack (snaps : List (List ProjectListItem)) :
    ∀ s : Settings, (runPool (snaps.map saveTask) s).groupStack = s.groupStack := by
  induction snaps with
  | nil => intro s; rfl
  | cons snap rest ih =>
      intro s
      have hstep : runPool ((snap :: rest).map saveTask) s =
          runPool (rest.map saveTask) (saveTask snap s) := rfl
      rw [hstep, ih]
      exact (writeBody_spec snap s).2.1

/-! ## Claim theorems -/

/-- Claim C1: after the save body runs, the durable store holds, under group
`app` and array key `projects`, a full replacement array of exactly the
canonical paths (as `{path: string}` records, in collection order) of the
snapshot's successfully constructed items — items with a null payload are
excluded — regardless of what the store held before (total overwrite), and the
completion diagnostic reports the count of saved entries. -/
theorem save_body_persists_constructed_paths
    (env : Nat → List ProjectListItem) (fuel : Nat) (s : Settings)
    (t : Nat) (s' : Settings) (ev : Event)
    (hgs : s.groupStack = [])
    (h : saveInSettingsBody env fuel s = some (t, s', ev)) :
    lookupArray s' (["app"], "projects") = some ((savedPaths (env t)).map projectRecord) ∧
    ev = Event.logInfo
      (toString (savedPaths (env t)).length ++ " projects have been saved to Settings") := by
  obtain ⟨hw, heq⟩ := saveInSettingsBody_eq env fuel s t s' ev h
  obtain ⟨h1, _, h3⟩ := writeBody_spec (env t) s
  have hs' : s' = (writeBody (env t) s).1 := congrArg Prod.fst heq
  have hev : ev = (writeBody (env t) s).2 := congrArg Prod.snd heq
  rw [hgs] at h1
  simp only [List.nil_append] at h1
  exact ⟨hs' ▸ h1, hev ▸ h3⟩

/-- Witness for C1 at a concrete environment, fuel and store. -/
theorem save_body_persists_constructed_paths_witness :
    emptySettings.groupStack = [] ∧
    saveInSettingsBody envW 1 emptySettings =
      some (0, settingsW, Event.logInfo "1 projects have been saved to Settings") ∧
    lookupArray settingsW (["app"], "projects") =
      some ((savedPaths (envW 0)).map projectRecord) ∧
    Event.logInfo "1 projects have been saved to Settings" =
      Event.logInfo
        (toString (savedPaths (envW 0)).length ++ " projects have been saved to Settings") :=
  ⟨rfl, by decide,
   (save_body_persists_constructed_paths envW 1 emptySettings 0 settingsW
     (Event.logInfo "1 projects have been saved to Settings") rfl (by decide)).1,
   (save_body_persists_constructed_paths envW 1 emptySettings 0 settingsW
     (Event.logInfo "1 projects have been saved to Settings") rfl (by decide)).2⟩

/-- Claim C2: the save body takes its snapshot only at a poll time where every
item's name differs from the loading sentinel (at all earlier polled times the
wait predicate failed), the store content it writes comes from that snapshot
only, and — under the Async-Unit contract that a constructed payload's
recorded path is never the sentinel — the sentinel string is never written to
the durable store as a path. -/
theorem save_body_waits_for_all_loaded
    (env : Nat → List ProjectListItem) (fuel : Nat) (s : Settings)
    (t : Nat) (s' : Settings) (ev : Event)
    (hgs : s.groupStack = [])
    (h : saveInSettingsBody env fuel s = some (t, s', ev)) :
    allLoaded (env t) = true ∧
    (∀ u, u < t → allLoaded (env u) = false) ∧
    lookupArray s' (["app"], "projects") = some ((savedPaths (env t)).map projectRecord) ∧
    (noSentinelPayload (env t) = true → "Loading..." ∉ savedPaths (env t)) := by
  obtain ⟨hw, heq⟩ := saveInSettingsBody_eq env fuel s t s' ev h
  obtain ⟨ha, _, hmid⟩ := waitAll_spec env fuel 0 t hw
  refine ⟨ha, fun u hu => hmid u (Nat.zero_le u) hu, ?_, sentinel_not_saved (env t)⟩
  have hs' : s' = (writeBody (env t) s).1 := congrArg Prod.fst heq
  obtain ⟨h1, _, _⟩ := writeBody_spec (env t) s
  rw [hgs] at h1
  simp only [List.nil_append] at h1
  exact hs' ▸ h1

/-- Witness for C2 at a concrete environment, fuel and store. -/
theorem save_body_waits_for_all_loaded_witness :
    emptySettings.groupStack = [] ∧
    saveInSettingsBody envW 1 emptySettings =
      some (0, settingsW, Event.logInfo "1 projects have been saved to Settings") ∧
    allLoaded (envW 0) = true ∧
    noSentinelPayload (envW 0) = true ∧
    "Loading..." ∉ savedPaths (envW 0) :=
  ⟨rfl, by decide,
   (save_body_waits_for_all_loaded envW 1 emptySettings 0 settingsW
     (Event.logInfo "1 projects have been saved to Settings") rfl (by decide)).1,
   by decide,
   (save_body_waits_for_all_loaded envW 1 emptySettings 0 settingsW
     (Event.logInfo "1 projects have been saved to Settings") rfl (by decide)).2.2.2 (by decide)⟩

/-- Claim C5: the single-worker pool executes queued saves sequentially in
submission order (running a queue is the sequential composition of its tasks),
so after any queue of saves the store's persisted array is exactly the record
of the last submitted save's snapshot — an earlier save never overwrites a
later one. -/
theorem pool_serialized_last_save_wins
    (snaps : List (List ProjectListItem)) (snap : List ProjectListItem) (s0 : Settings)
    (hgs : s0.groupStack = []) :
    lookupArray (runPool ((snaps ++ [snap]).map saveTask) s0) (["app"], "projects") =
      some ((savedPaths snap).map projectRecord) ∧
    (∀ (t1 t2 : List (Settings → Settings)) (s : Settings),
      runPool (t1 ++ t2) s = runPool t2 (runPool t1 s)) := by
  constructor
  · rw [List.map_append]
    have hsplit : runPool (snaps.map saveTask ++ [snap].map saveTask) s0 =
        runPool ([snap].map saveTask) (runPool (snaps.map saveTask) s0) := by
      rw [runPool, runPool, runPool, List.foldl_append]
    rw [hsplit]
    have hgs2 : (runPool (snaps.map saveTask) s0).groupStack = [] := by
      rw [runPool_groupStack snaps s0, hgs]
    have hone : runPool ([snap].map saveTask) (runPool (snaps.map saveTask) s0) =
        saveTask snap (runPool (snaps.map saveTask) s0) := rfl
    rw [hone]
    obtain ⟨h1, _, _⟩ := writeBody_spec snap (runPool (snaps.map saveTask) s0)
    rw [hgs2] at h1
    simp only [List.nil_append] at h1
    exact h1
  · intro t1 t2 s
    rw [runPool, runPool, runPool, List.foldl_append]

/-- Witness for C5 at a concrete queue of two saves. -/
theorem pool_serialized_last_save_wins_witness :
    emptySettings.groupStack = [] ∧
    lookupArray (runPool (([[unitA]] ++ [[unitB]]).map saveTask) emptySettings)
        (["app"], "projects") = some ((savedPaths [unitB]).map projectRecord) :=
  ⟨rfl, (pool_serialized_last_save_wins [[unitA]] [unitB] emptySettings rfl).1⟩

/-- Claim C3 (counterexample): the claimed "duplicate iff same-file-match or
literal name equality" fails when the item's payload is constructed, the
same-file check raises `OSError`, and the name nevertheless equals the
candidate: the generator yields `False` (the caught exception suppresses the
name fallback), while the claimed disjunction holds. -/
theorem dup_check_name_fallback_counterexample :
    is_duplicate_of sfNone cexItem "p" = false ∧
    specDuplicateOf sfNone cexItem "p" = true := by decide

/-- Claim C3 (amended): a candidate is a duplicate of an item iff the item's
payload is constructed and the same-file check succeeds positively, or the
candidate literally equals the item's name and the same-file check (when the
payload is constructed) does not raise; a raising same-file check always
yields "not a duplicate" (never propagated); and the duplicate index is the
first matching index in collection order, `-1` when no item matches. -/
theorem dup_check_characterization
    (samefile : String → String → Option Bool) (item : ProjectListItem) (path : String)
    (projects : List ProjectListItem) :
    (is_duplicate_of samefile item path = true ↔
      ((∃ pr, item.project = some pr ∧ samefile pr.path path = some true) ∨
       (path = item.name ∧ ∀ pr, item.project = some pr → samefile pr.path path ≠ none))) ∧
    (∀ pr, item.project = some pr → samefile pr.path path = none →
      is_duplicate_of samefile item path = false) ∧
    (duplicate_index samefile projects path = -1 ↔
      ∀ it ∈ projects, is_duplicate_of samefile it path = false) ∧
    (∀ i : Nat, duplicate_index samefile projects path = Int.ofNat i →
      i < projects.length ∧
      is_duplicate_of samefile (projects.getD i defaultItem) path = true ∧
      ∀ j, j < i → is_duplicate_of samefile (projects.getD j defaultItem) path = false) := by
  refine ⟨?_, ?_, duplicate_index_neg_iff samefile projects path,
    fun i h => duplicate_index_coe_spec samefile projects path i h⟩
  · cases hpr : item.project with
    | none => simp [is_duplicate_of, hpr]
    | some pr =>
        cases hsf : samefile pr.path path with
        | none => simp [is_duplicate_of, hpr, hsf]
        | some b => cases b <;> simp [is_duplicate_of, hpr, hsf]
  · intro pr hpr hsf
    simp [is_duplicate_of, hpr, hsf]

/-- Witness for C3's amended characterization at a concrete collection where
the first match sits at index 1. -/
theorem dup_check_characterization_witness :
    duplicate_index sfNone [unitLoading, namedLoadingItem] "p" = Int.ofNat 1 ∧
    1 < ([unitLoading, namedLoadingItem] : List ProjectListItem).length ∧
    is_duplicate_of sfNone (([unitLoading, namedLoadingItem] :
      List ProjectListItem).getD 1 defaultItem) "p" = true :=
  ⟨by decide,
   ((dup_check_characterization sfNone defaultItem "p"
      [unitLoading, namedLoadingItem]).2.2.2 1 (by decide)).1,
   ((dup_check_characterization sfNone defaultItem "p"
      [unitLoading, namedLoadingItem]).2.2.2 1 (by decide)).2.1⟩

/-- Claim C4: adding a path that is a duplicate of an existing item is
idempotent on the collection — nothing is inserted, the heap is untouched, the
existing item (at the first matching, in-range index) is returned, a
`goToProject` signal carrying that index is emitted, and non-empty caller
parameters are forwarded to the existing item as a `save_config` action. -/
theorem add_duplicate_idempotent
    (samefile : String → String → Option Bool) (projects : List ProjectListItem)
    (heap : List (List String)) (path : String) (kw : Option ItemKwargs) (cb : Bool) (i : Nat)
    (h : duplicate_index samefile projects path = Int.ofNat i) :
    (addListItem samefile projects heap path kw cb).projects = projects ∧
    (addListItem samefile projects heap path kw cb).heap = heap ∧
    (addListItem samefile projects heap path kw cb).created = false ∧
    i < projects.length ∧
    (addListItem samefile projects heap path kw cb).returned = projects.getD i defaultItem ∧
    Event.goToProject i ∈ (addListItem samefile projects heap path kw cb).events ∧
    (∀ kwa : ItemKwargs, kw = some kwa → kwa.parameters ≠ [] →
      Event.runAction i "save_config" kwa.parameters ∈
        (addListItem samefile projects heap path kw cb).events) := by
  rw [addListItem_dup samefile projects heap path kw cb i h]
  obtain ⟨hlen, _, _⟩ := duplicate_index_coe_spec samefile projects path i h
  refine ⟨rfl, rfl, rfl, hlen, rfl, ?_, ?_⟩
  · simp [dupOutcome]
  · intro kwa hkw hne
    have hparams : (copiedKwargs kw).parameters = kwa.parameters := by
      rw [(copiedKwargs_fields kw).2.1, hkw]
      rfl
    have hne' : (copiedKwargs kw).parameters.length ≠ 0 := by
      rw [hparams]
      simpa [List.length_eq_zero] using hne
    simp [dupOutcome, hne', hparams]
    exact hne

/-- Witness for C4 at a concrete duplicate add carrying parameters. -/
theorem add_duplicate_idempotent_witness :
    duplicate_index sfNone [namedLoadingItem] "p" = Int.ofNat 0 ∧
    kwParams.parameters ≠ [] ∧
    (addListItem sfNone [namedLoadingItem] [] "p" (some kwParams) false).projects =
      [namedLoadingItem] ∧
    Event.goToProject 0 ∈
      (addListItem sfNone [namedLoadingItem] [] "p" (some kwParams) false).events ∧
    Event.runAction 0 "save_config" kwParams.parameters ∈
      (addListItem sfNone [namedLoadingItem] [] "p" (some kwParams) false).events :=
  ⟨by decide, by decide,
   (add_duplicate_idempotent sfNone [namedLoadingItem] [] "p" (some kwParams) false 0
     (by decide)).1,
   (add_duplicate_idempotent sfNone [namedLoadingItem] [] "p" (some kwParams) false 0
     (by decide)).2.2.2.2.2.1,
   (add_duplicate_idempotent sfNone [namedLoadingItem] [] "p" (some kwParams) false 0
     (by decide)).2.2.2.2.2.2 kwParams rfl (by decide)⟩

/-- Claim C6: a non-empty batch triggers exactly one persistence save, and it
is the last thing the batch does (after all paths have been processed); an
empty batch creates nothing, triggers no save, and only emits a diagnostic. -/
theorem batch_add_single_save
    (samefile : String → String → Option Bool) (classify : String → UrlClass)
    (projects : List ProjectListItem) (heap : List (List String)) (paths : List String) :
    (paths ≠ [] →
      ((addProjectsByPaths samefile classify projects heap paths).events).count Event.save = 1 ∧
      ((addProjectsByPaths samefile classify projects heap paths).events).getLast? =
        some Event.save) ∧
    (paths = [] →
      (addProjectsByPaths samefile classify projects heap paths).projects = projects ∧
      (addProjectsByPaths samefile classify projects heap paths).heap = heap ∧
      (addProjectsByPaths samefile classify projects heap paths).events =
        [Event.logWarning "No paths were given"]) := by
  constructor
  · intro hne
    have hlen : paths.length ≠ 0 := fun hc => hne (List.length_eq_zero.mp hc)
    have hev : (addProjectsByPaths samefile classify projects heap paths).events =
        (paths.foldl (batchStep samefile classify)
          { projects := projects, heap := heap, events := [] }).events ++ [Event.save] := by
      rw [addProjectsByPaths, if_pos hlen]
    constructor
    · rw [hev, List.count_append, batchFold_count_save]
      rfl
    · rw [hev]
      exact List.getLast?_concat _
  · intro he
    subst he
    rw [addProjectsByPaths]
    exact ⟨rfl, rfl, rfl⟩

/-- Witness for C6 at a concrete one-element batch. -/
theorem batch_add_single_save_witness :
    (["p1"] : List String) ≠ [] ∧
    ((addProjectsByPaths sfNone clRel [] [] ["p1"]).events).count Event.save = 1 ∧
    ((addProjectsByPaths sfNone clRel [] [] ["p1"]).events).getLast? = some Event.save :=
  ⟨by decide,
   ((batch_add_single_save sfNone clRel [] [] ["p1"]).1 (by decide)).1,
   ((batch_add_single_save sfNone clRel [] [] ["p1"]).1 (by decide)).2⟩

/-- Claim C7: `get` and `removeProject` with an out-of-range index (including
negative ones) are silent no-ops; on an in-range index, `removeProject`
removes the item bracketed by the remove notifications and submits a save
exactly when the removed item's payload was constructed or the item came from
the durable store at startup. -/
theorem index_range_get_remove (projects : List ProjectListItem) (index : Int) :
    ((index < 0 ∨ (projects.length : Int) ≤ index) →
      get projects index = none ∧
      removeProject projects index = { projects := projects, events := [] }) ∧
    (0 ≤ index → index < (projects.length : Int) →
      get projects index = some (projects.getD index.toNat defaultItem) ∧
      (removeProject projects index).projects = projects.eraseIdx index.toNat ∧
      (removeProject projects index).events.head? =
        some (Event.beginRemoveRows index.toNat index.toNat) ∧
      Event.endRemoveRows ∈ (removeProject projects index).events ∧
      Event.deleteLater ∈ (removeProject projects index).events ∧
      (Event.save ∈ (removeProject projects index).events ↔
        ((projects.getD index.toNat defaultItem).project.isSome = true ∨
         (projects.getD index.toNat defaultItem).fromStartup = true))) := by
  constructor
  · intro hout
    have hcond : ¬ (0 ≤ index ∧ index < (projects.length : Int)) := by omega
    rw [get, if_neg hcond, removeProject, if_neg hcond]
    exact ⟨rfl, rfl⟩
  · intro h0 hlt
    have hcond : 0 ≤ index ∧ index < (projects.length : Int) := ⟨h0, hlt⟩
    rw [get, if_pos hcond, removeProject, if_pos hcond]
    refine ⟨rfl, rfl, rfl, by simp, by simp, ?_⟩
    set q := projects.getD index.toNat defaultItem with hq
    cases hpv : q.project with
    | some pr => simp [hpv]
    | none => cases hfs : q.fromStartup <;> simp [hpv, hfs]

/-- Witness for C7 at a concrete collection, exercising both an out-of-range
(negative) index and an in-range one whose removal must save. -/
theorem index_range_get_remove_witness :
    ((-1 : Int) < 0 ∨ (([unitA, unitLoading] : List ProjectListItem).length : Int) ≤ -1) ∧
    get [unitA, unitLoading] (-1) = none ∧
    removeProject [unitA, unitLoading] (-1) =
      { projects := [unitA, unitLoading], events := [] } ∧
    (0 : Int) ≤ 0 ∧ (0 : Int) < (([unitA, unitLoading] : List ProjectListItem).length : Int) ∧
    Event.save ∈ (removeProject [unitA, unitLoading] 0).events :=
  ⟨Or.inl (by decide),
   ((index_range_get_remove [unitA, unitLoading] (-1)).1 (Or.inl (by decide))).1,
   ((index_range_get_remove [unitA, unitLoading] (-1)).1 (Or.inl (by decide))).2,
   by decide, by decide,
   ((index_range_get_remove [unitA, unitLoading] 0).2 (by decide)
     (by decide)).2.2.2.2.2.mpr (Or.inl (by decide))⟩

/-- Claim C8 (counterexample): a non-empty malformed batch entry is skipped
with an error-level record — no warning-level diagnostic is emitted for it,
contrary to the claim's "warning-level". -/
theorem malformed_path_diagnostic_counterexample :
    ((addProjectsByPaths sfNone clOther [] [] ["bad:x"]).events.filter isWarningEv) = [] ∧
    ((addProjectsByPaths sfNone clOther [] [] ["bad:x"]).events.filter isErrorEv) =
      [Event.logError "Incorrect path: bad:x"] ∧
    (addProjectsByPaths sfNone clOther [] [] ["bad:x"]).projects = [] := by decide

/-- Claim C8 (amended): in a non-empty batch, each entry is resolved — a
local-file URI to its decoded local path, a scheme-less bare string verbatim —
and only the resolved entries reach `addListItem`, in order; an empty entry is
skipped with a warning-level diagnostic and any other malformed entry with an
error-level one, creating no item, while the rest of the batch continues. -/
theorem batch_path_resolution
    (samefile : String → String → Option Bool) (classify : String → UrlClass)
    (projects : List ProjectListItem) (heap : List (List String)) (paths : List String)
    (hne : paths ≠ []) :
    (addProjectsByPaths samefile classify projects heap paths).projects =
      ((paths.filterMap (resolvePath classify)).foldl (addResolved samefile)
        (projects, heap)).1 ∧
    (addProjectsByPaths samefile classify projects heap paths).heap =
      ((paths.filterMap (resolvePath classify)).foldl (addResolved samefile)
        (projects, heap)).2 ∧
    (∀ p ∈ paths, classify p = UrlClass.other →
      Event.logError ("Incorrect path: " ++ p) ∈
        (addProjectsByPaths samefile classify projects heap paths).events) ∧
    (∀ p ∈ paths, classify p = UrlClass.empty →
      Event.logWarning ("Given path is empty: " ++ p) ∈
        (addProjectsByPaths samefile classify projects heap paths).events) := by
  have hlen : paths.length ≠ 0 := fun hc => hne (List.length_eq_zero.mp hc)
  have hproj : (addProjectsByPaths samefile classify projects heap paths).projects =
      (paths.foldl (batchStep samefile classify)
        { projects := projects, heap := heap, events := [] }).projects := by
    rw [addProjectsByPaths, if_pos hlen]
  have hheap : (addProjectsByPaths samefile classify projects heap paths).heap =
      (paths.foldl (batchStep samefile classify)
        { projects := projects, heap := heap, events := [] }).heap := by
    rw [addProjectsByPaths, if_pos hlen]
  have hev : (addProjectsByPaths samefile classify projects heap paths).events =
      (paths.foldl (batchStep samefile classify)
        { projects := projects, heap := heap, events := [] }).events ++ [Event.save] := by
    rw [addProjectsByPaths, if_pos hlen]
  obtain ⟨hp, hh⟩ := batchFold_projects_heap samefile classify paths
    { projects := projects, heap := heap, events := [] }
  refine ⟨?_, ?_, ?_, ?_⟩
  · rw [hproj, hp]
  · rw [hheap, hh]
  · intro p hmem hc
    rw [hev]
    exact List.mem_append.mpr (Or.inl (batchFold_mem_error samefile classify paths _ p hmem hc))
  · intro p hmem hc
    rw [hev]
    exact List.mem_append.mpr (Or.inl (batchFold_mem_warning samefile classify paths _ p hmem hc))

/-- Witness for C8's amended statement at a concrete batch exercising all four
path classes. -/
theorem batch_path_resolution_witness :
    (["f", "bad", "", "rel"] : List String) ≠ [] ∧
    (addProjectsByPaths sfNone clMix [] [] ["f", "bad", "", "rel"]).projects =
      (((["f", "bad", "", "rel"] : List String).filterMap (resolvePath clMix)).foldl
        (addResolved sfNone) ([], [])).1 ∧
    Event.logError ("Incorrect path: " ++ "bad") ∈
      (addProjectsByPaths sfNone clMix [] [] ["f", "bad", "", "rel"]).events ∧
    Event.logWarning ("Given path is empty: " ++ "") ∈
      (addProjectsByPaths sfNone clMix [] [] ["f", "bad", "", "rel"]).events :=
  ⟨by decide,
   (batch_path_resolution sfNone clMix [] [] ["f", "bad", "", "rel"] (by decide)).1,
   (batch_path_resolution sfNone clMix [] [] ["f", "bad", "", "rel"] (by decide)).2.2.1
     "bad" (by decide) (by decide),
   (batch_path_resolution sfNone clMix [] [] ["f", "bad", "", "rel"] (by decide)).2.2.2
     "" (by decide) (by decide)⟩

/-- Claim C9: a non-duplicate add appends the new item at the tail and a
duplicate add leaves the collection unchanged, so existing entries are never
reordered; consequently, for any sequence of adds with no removals in which
every add created a new item, index `i` of the resulting collection holds the
item returned by the `i`-th add (insertion order is display order). -/
theorem add_order_preservation (samefile : String → String → Option Bool) :
    (∀ (projects : List ProjectListItem) (heap : List (List String)) (path : String)
        (kw : Option ItemKwargs) (cb : Bool),
      ((addListItem samefile projects heap path kw cb).created = true →
        (addListItem samefile projects heap path kw cb).projects =
          projects ++ [(addListItem samefile projects heap path kw cb).returned]) ∧
      ((addListItem samefile projects heap path kw cb).created = false →
        (addListItem samefile projects heap path kw cb).projects = projects)) ∧
    (∀ (reqs : List (String × Option ItemKwargs)) (projects : List ProjectListItem)
        (heap : List (List String)),
      (∃ added, (addSeq samefile
          { projects := projects, heap := heap, returns := [], allCreated := true }
          reqs).projects = projects ++ added) ∧
      ((addSeq samefile
          { projects := projects, heap := heap, returns := [], allCreated := true }
          reqs).allCreated = true →
        (addSeq samefile
          { projects := projects, heap := heap, returns := [], allCreated := true }
          reqs).projects =
          projects ++ (addSeq samefile
            { projects := projects, heap := heap, returns := [], allCreated := true }
            reqs).returns)) := by
  refine ⟨fun projects heap path kw cb => addListItem_shape samefile projects heap path kw cb, ?_⟩
  intro reqs projects heap
  obtain ⟨nu, nr, ha, hb, hcr⟩ := addSeq_ext samefile reqs
    { projects := projects, heap := heap, returns := [], allCreated := true }
  refine ⟨⟨nu, ha⟩, fun hall => ?_⟩
  obtain ⟨_, hnn⟩ := hcr hall
  rw [ha, hb]
  simp [hnn]

/-- Witness for C9 at a concrete two-add sequence. -/
theorem add_order_preservation_witness :
    (addSeq sfNone { projects := [], heap := [], returns := [], allCreated := true }
      reqsW).allCreated = true ∧
    (addSeq sfNone { projects := [], heap := [], returns := [], allCreated := true }
      reqsW).projects =
      [] ++ (addSeq sfNone { projects := [], heap := [], returns := [], allCreated := true }
        reqsW).returns :=
  ⟨by decide, ((add_order_preservation sfNone).2 reqsW [] []).2 (by decide)⟩

/-- Claim C10 (counterexample): on a duplicate add, the caller-supplied
non-empty `project_args` list is not mutated at all — its first element is not
overwritten with the path, contrary to the claim's unconditional "is mutated
in place". -/
theorem project_args_no_mutation_on_duplicate :
    (addListItem sfNone [namedLoadingItem] [["X", "Y"]] "p" (some kwListRef) false).heap =
      [["X", "Y"]] ∧
    (addListItem sfNone [namedLoadingItem] [["X", "Y"]] "p" (some kwListRef) false).heap ≠
      [["p", "Y"]] := by decide

/-- Claim C10 (amended): `addListItem` works on a shallow copy of the kwargs
mapping, so the caller's own mapping is untouched; when a new item is actually
created (no duplicate was found) and the caller supplied a non-empty
`project_args` list, that very list is mutated in place — its first element is
overwritten with the path and the rest preserved; with an absent or empty
`project_args` a fresh single-element list holding the path is allocated
instead and the caller's lists are untouched; on a duplicate add the heap is
untouched entirely. -/
theorem add_kwargs_aliasing
    (samefile : String → String → Option Bool) (projects : List ProjectListItem)
    (heap : List (List String)) (path : String) (kwa : ItemKwargs) (cb : Bool) :
    ((addListItem samefile projects heap path (some kwa) cb).created = true →
      (∀ r, kwa.project_args = some r → heap.getD r [] ≠ [] →
        (addListItem samefile projects heap path (some kwa) cb).heap =
          heap.set r (path :: (heap.getD r []).tail)) ∧
      ((kwa.project_args = none ∨
          (∃ r, kwa.project_args = some r ∧ heap.getD r [] = [])) →
        (addListItem samefile projects heap path (some kwa) cb).heap = heap ++ [[path]])) ∧
    ((addListItem samefile projects heap path (some kwa) cb).created = false →
      (addListItem samefile projects heap path (some kwa) cb).heap = heap) := by
  rcases duplicate_index_cases samefile projects path with hd | ⟨i, hd⟩
  · rw [addListItem_new samefile projects heap path (some kwa) cb hd]
    have hargs : (copiedKwargs (some kwa)).project_args = kwa.project_args :=
      (copiedKwargs_fields (some kwa)).1
    have hh : (newOutcome projects heap path (copiedKwargs (some kwa)) cb).heap =
        (match (copiedKwargs (some kwa)).project_args with
         | none => heap ++ [[path]]
         | some r =>
             if (heap.getD r []).length = 0 then heap ++ [[path]]
             else heap.set r (path :: (heap.getD r []).tail)) := rfl
    constructor
    · intro _
      constructor
      · intro r hr hne
        have hlen0 : ¬ (heap.getD r []).length = 0 := by
          simpa [List.length_eq_zero] using hne
        rw [hh, hargs, hr]
        simp only [if_neg hlen0]
      · intro hcase
        rcases hcase with hnone | ⟨r, hr, hempty⟩
        · rw [hh, hargs, hnone]
        · rw [hh, hargs, hr]
          have hl0 : (heap.getD r []).length = 0 := by rw [hempty]; rfl
          simp only [if_pos hl0]
    · intro hc
      simp [newOutcome] at hc
  · rw [addListItem_dup samefile projects heap path (some kwa) cb i hd]
    exact ⟨fun hc => by simp [dupOutcome] at hc, fun _ => rfl⟩

/-- Witness for C10's amended statement: a non-duplicate add with a
caller-supplied two-element list mutates it in place. -/
theorem add_kwargs_aliasing_witness :
    (addListItem sfNone [] [["X", "Y"]] "n" (some kwListRef) false).created = true ∧
    kwListRef.project_args = some 0 ∧
    ([["X", "Y"]] : List (List String)).getD 0 [] ≠ [] ∧
    (addListItem sfNone [] [["X", "Y"]] "n" (some kwListRef) false).heap =
      [["X", "Y"]].set 0 ("n" :: (([["X", "Y"]] : List (List String)).getD 0 []).tail) :=
  ⟨by decide, by decide, by decide,
   ((add_kwargs_aliasing sfNone [] [["X", "Y"]] "n" kwListRef false).1 (by decide)).1
     0 rfl (by decide)⟩

end ProjectsList
